import Mathlib

/-!
# Verification of tantivy's fuzzy term query (`src/query/fuzzy_query.rs`)

A shallow embedding of the fuzzy-term-query evaluation pipeline:

* `FuzzyTermQuery` with its constructors `new` / `new_prefix` (embedded here
  as `FuzzyTermQuery.new` / `FuzzyTermQuery.newPrefix`, since `prefix` is a
  Lean keyword), its `Query::weight` implementation and its
  `AutomatonBuilder::build_automaton` implementation;
* `AutomatonWeight` with `automaton_stream` and `Weight::scorer`.

External collaborators that the source file uses but whose code lives
elsewhere in the repository (the `common::BitSet`, `BitSetDocSet`,
`ConstScorer`, the term dictionary and the posting-list reader) are modelled
at their interface boundary from the specification, each marked
`Modelled from the spec:` in its doc comment.  Rust `Result` is embedded as
`Except String`; fallibility of dictionary and posting reads is made explicit
there, as the specification requires failures to propagate out of scorer
construction.
-/

set_option autoImplicit false

namespace Fuzzy

/-- A term: a field identifier paired with the term text
(`schema::Term`, used via `.field()` and `.text()` in the source). -/
structure Term where
  field : Nat
  text : String
deriving DecidableEq

/-- `schema::IndexRecordOption`: the record granularity at which a posting
list is decoded.  The source always passes `IndexRecordOption::Basic`. -/
inductive IndexRecordOption where
  | Basic
  | WithFreqs
  | WithFreqsAndPositions
deriving DecidableEq

/-- The fuzzy term query (source lines 17–27): target term, edit-distance
bound (`u8` in the source, embedded as `Nat`), transposition-cost policy and
prefix-mode flag (the source field `prefix`, renamed `isPrefix` because
`prefix` is a Lean keyword). -/
structure FuzzyTermQuery where
  term : Term
  distance : Nat
  transposition_cost_one : Bool
  isPrefix : Bool
deriving DecidableEq

/-- `FuzzyTermQuery::new` (source lines 31–38): exact fuzzy matching, the
prefix flag is set to `false`. -/
def FuzzyTermQuery.new (term : Term) (distance : Nat)
    (transposition_cost_one : Bool) : FuzzyTermQuery :=
  { term := term
    distance := distance
    transposition_cost_one := transposition_cost_one
    isPrefix := false }

/-- `FuzzyTermQuery::new_prefix` (source lines 40–47): prefix fuzzy
matching, the prefix flag is set to `true`. -/
def FuzzyTermQuery.newPrefix (term : Term) (distance : Nat)
    (transposition_cost_one : Bool) : FuzzyTermQuery :=
  { term := term
    distance := distance
    transposition_cost_one := transposition_cost_one
    isPrefix := true }

/-- Modelled from the spec: restricted Damerau–Levenshtein distance (§4.1,
"insertions/deletions/substitutions and, if enabled, adjacent-character
transpositions counted as a single edit").  The `levenshtein_automata` crate
is an external collaborator whose code is not part of this repository; its
accepted language is characterised by this distance.  The first `Nat`
argument is fuel making the recursion structural; with fuel
`≥ xs.length + ys.length` the fuel never runs out. -/
def levDistFuel (transposition_cost_one : Bool) :
    Nat → List Char → List Char → Nat
  | 0, xs, ys => xs.length + ys.length
  | _ + 1, [], ys => ys.length
  | _ + 1, x :: xs, [] => (x :: xs).length
  | fuel + 1, x :: xs, y :: ys =>
    let del := levDistFuel transposition_cost_one fuel xs (y :: ys) + 1
    let ins := levDistFuel transposition_cost_one fuel (x :: xs) ys + 1
    let sub := levDistFuel transposition_cost_one fuel xs ys +
      (if x = y then 0 else 1)
    let base := min del (min ins sub)
    match xs, ys with
    | x2 :: xs2, y2 :: ys2 =>
      if transposition_cost_one ∧ x = y2 ∧ y = x2 then
        min base (levDistFuel transposition_cost_one fuel xs2 ys2 + 1)
      else base
    | _, _ => base

/-- Modelled from the spec: edit distance between two strings under the
given transposition policy (§4.1). -/
def levDist (transposition_cost_one : Bool) (xs ys : List Char) : Nat :=
  levDistFuel transposition_cost_one (xs.length + ys.length + 1) xs ys

/-- Modelled from the spec: the deterministic Levenshtein automaton produced
by the external `levenshtein_automata` crate, represented by its immutable
construction parameters (§3 "Automaton", §4.1).  Exact mode accepts the
strings within `distance` edits of `target`; prefix mode accepts any string
some prefix of which is within `distance` edits of `target`. -/
structure DFA where
  distance : Nat
  transposition_cost_one : Bool
  target : String
  isPrefix : Bool
deriving DecidableEq

/-- Acceptance predicate of the Levenshtein DFA (modelled from the spec,
§4.1: exact mode vs prefix mode). -/
def DFA.accepts (d : DFA) (s : String) : Bool :=
  if d.isPrefix then
    (List.range (s.length + 1)).any fun k =>
      decide (levDist d.transposition_cost_one (s.toList.take k)
        d.target.toList ≤ d.distance)
  else
    decide (levDist d.transposition_cost_one s.toList d.target.toList ≤
      d.distance)

/-- Modelled from the spec: `LevenshteinAutomatonBuilder::new(distance,
transposition_cost_one)` of the external crate (§4.1). -/
structure LevenshteinAutomatonBuilder where
  distance : Nat
  transposition_cost_one : Bool
deriving DecidableEq

/-- `LevenshteinAutomatonBuilder::new`. -/
def LevenshteinAutomatonBuilder.new (distance : Nat)
    (transposition_cost_one : Bool) : LevenshteinAutomatonBuilder :=
  { distance := distance, transposition_cost_one := transposition_cost_one }

/-- `LevenshteinAutomatonBuilder::build_dfa`: exact-mode DFA for the target
string. -/
def LevenshteinAutomatonBuilder.build_dfa (b : LevenshteinAutomatonBuilder)
    (text : String) : DFA :=
  { distance := b.distance
    transposition_cost_one := b.transposition_cost_one
    target := text
    isPrefix := false }

/-- `LevenshteinAutomatonBuilder::build_prefix_dfa` (embedded as
`buildPrefixDfa`): prefix-mode DFA for the target string. -/
def LevenshteinAutomatonBuilder.buildPrefixDfa
    (b : LevenshteinAutomatonBuilder) (text : String) : DFA :=
  { distance := b.distance
    transposition_cost_one := b.transposition_cost_one
    target := text
    isPrefix := true }

/-- `FuzzyTermQuery`'s implementation of
`AutomatonBuilder::<DFA>::build_automaton` (source lines 64–77): build a
Levenshtein automaton builder from the query's distance and transposition
policy, then an exact-mode DFA, or a prefix-mode DFA when the prefix flag is
set, over the query's term text.  A pure function of the query's own
immutable fields. -/
def FuzzyTermQuery.build_automaton (q : FuzzyTermQuery) : DFA :=
  let lev_automaton_builder :=
    LevenshteinAutomatonBuilder.new q.distance q.transposition_cost_one
  if q.isPrefix then
    lev_automaton_builder.buildPrefixDfa q.term.text
  else
    lev_automaton_builder.build_dfa q.term.text

/-- The `fst::Automaton` capability as this file uses it: acceptance of a
byte string (§3 "Automaton"; only acceptance is consumed by the dictionary
streaming contract of §4.3). -/
class Automaton (A : Type) where
  accepts : A → String → Bool

instance : Automaton DFA :=
  ⟨DFA.accepts⟩

/-- An opaque handle to a term's metadata in the dictionary
(`termdict::TermInfo`, the `value()` of the term streamer). -/
structure TermInfo where
  termOrd : Nat
deriving DecidableEq

/-- Modelled from the spec: the term dictionary (§3), a sorted read-only
mapping from term byte-strings to term metadata.  Reading it may fail
(§7 "Retrieval errors"), hence the `Except`. -/
structure TermDictionary where
  entries : Except String (List (String × TermInfo))

/-- Modelled from the spec: `TermDictionary::search(automaton)` followed by
`into_stream()`, producing exactly the dictionary entries accepted by the
automaton, in dictionary order, as the streamer contract of §3/§4.3
requires; a dictionary read failure propagates (§7). -/
def TermDictionary.search {A : Type} [Automaton A] (td : TermDictionary)
    (a : A) : Except String (List (String × TermInfo)) :=
  match td.entries with
  | Except.error e => Except.error e
  | Except.ok es => Except.ok (es.filter fun e => Automaton.accepts a e.1)

/-- Modelled from the spec: a segment's inverted index for one field (§6):
its term dictionary and its posting-list reader.
`read_block_postings_from_terminfo` yields the blocks of document ids of one
term's posting list at the requested record granularity, or fails
(§7 "Retrieval errors"). -/
structure InvertedIndex where
  terms : TermDictionary
  read_block_postings_from_terminfo :
    TermInfo → IndexRecordOption → Except String (List (List Nat))

/-- Modelled from the spec: a segment reader (§6): the segment's
document-count bound `max_doc` and its per-field inverted indexes. -/
structure SegmentReader where
  max_doc : Nat
  inverted_index : Nat → InvertedIndex

/-- Modelled from the spec: the Doc Bitset (§3), `common::BitSet`: a
fixed-capacity set of document ids `0..max_value`, one `Bool` per slot. -/
structure BitSet where
  bits : List Bool
deriving DecidableEq

/-- `BitSet::with_max_value`: an empty bitset of the given capacity. -/
def BitSet.with_max_value (max_value : Nat) : BitSet :=
  ⟨List.replicate max_value false⟩

/-- `BitSet::insert`: set the bit of one document id (idempotent; a document
id at or beyond the capacity leaves the bitset unchanged). -/
def BitSet.insert (bs : BitSet) (doc : Nat) : BitSet :=
  ⟨bs.bits.set doc true⟩

/-- The capacity of a bitset. -/
def BitSet.max_value (bs : BitSet) : Nat :=
  bs.bits.length

/-- Modelled from the spec: `BitSetDocSet` (§3 "Doc Set", §4.6): the ordered
finite sequence of document ids whose bits are set, ascending. -/
structure BitSetDocSet where
  docs : List Nat
deriving DecidableEq

/-- `BitSetDocSet::from(bitset)` (embedded as `ofBitSet` since `from` is a
Lean keyword): enumerate the set bits in ascending order. -/
def BitSetDocSet.ofBitSet (bs : BitSet) : BitSetDocSet :=
  ⟨(List.range bs.bits.length).filter fun i => bs.bits.getD i false⟩

/-- Modelled from the spec: `ConstScorer` (§4.6): wraps a doc set, reporting
the same fixed score for every document it yields. -/
structure ConstScorer where
  docset : BitSetDocSet
  score : Float

/-- `ConstScorer::new(docset)`: the fixed score is `1.0` (§4.4 step 5,
§8 "Constant scoring"). -/
def ConstScorer.new (docset : BitSetDocSet) : ConstScorer :=
  { docset := docset, score := 1.0 }

/-- The boxed `AutomatonBuilder<A>` trait object held by an
`AutomatonWeight` (source line 84): just its `build_automaton` capability. -/
structure AutomatonBuilder (A : Type) where
  build_automaton : Unit → A

/-- `AutomatonWeight<A>` (source lines 79–85): the bound field and the boxed
automaton builder. -/
structure AutomatonWeight (A : Type) where
  field : Nat
  builder : AutomatonBuilder A

/-- `FuzzyTermQuery::specialized_weight` (source lines 49–55): an
`AutomatonWeight<DFA>` over the term's field whose builder is a box of the
query itself. -/
def FuzzyTermQuery.specialized_weight (q : FuzzyTermQuery) :
    AutomatonWeight DFA :=
  { field := q.term.field
    builder := ⟨fun _ => q.build_automaton⟩ }

/-- Modelled from the spec: the searcher handed to `Query::weight` (§6); the
fuzzy query's `weight` ignores it entirely. -/
structure Searcher where
  segment_readers : List SegmentReader

/-- `<FuzzyTermQuery as Query>::weight` (source lines 58–62): both the
searcher and the `scoring_enabled` flag are ignored; the result is always
`Ok` of the specialized constant-score weight. -/
def FuzzyTermQuery.weight (q : FuzzyTermQuery) (_searcher : Searcher)
    (_scoring_enabled : Bool) : Except String (AutomatonWeight DFA) :=
  Except.ok q.specialized_weight

/-- `AutomatonWeight::automaton_stream` (source lines 91–97): build a fresh
automaton via the builder capability and open a term stream over the
dictionary with it. -/
def AutomatonWeight.automaton_stream {A : Type} [Automaton A]
    (w : AutomatonWeight A) (term_dict : TermDictionary) :
    Except String (List (String × TermInfo)) :=
  let automaton := w.builder.build_automaton ()
  term_dict.search automaton

/-- The inner double loop of `scorer` (source lines 115–119): for every
document id in every block of one term's posting list, insert it into the
doc bitset. -/
def insertPostings (blocks : List (List Nat)) (bs : BitSet) : BitSet :=
  blocks.foldl (fun acc block => block.foldl BitSet.insert acc) bs

/-- The term-stream loop of `scorer` (source lines 111–120): for each
matched term in dictionary order, read its posting list at `Basic`
granularity and insert every document id of every block into the bitset;
a failed posting read aborts and propagates (§4.4 "Error conditions"). -/
def fillBitset (inv : InvertedIndex) :
    List (String × TermInfo) → BitSet → Except String BitSet
  | [], bs => Except.ok bs
  | entry :: rest, bs =>
    match inv.read_block_postings_from_terminfo entry.2
        IndexRecordOption.Basic with
    | Except.error e => Except.error e
    | Except.ok blocks => fillBitset inv rest (insertPostings blocks bs)

/-- `<AutomatonWeight<A> as Weight>::scorer` (source lines 104–123):
allocate a doc bitset of capacity `max_doc`, stream the automaton-matched
terms of the bound field's dictionary, accumulate every matched term's
posting-list document ids into the bitset, and wrap the result as a
constant-score scorer; any dictionary or posting-read failure propagates. -/
def AutomatonWeight.scorer {A : Type} [Automaton A] (w : AutomatonWeight A)
    (reader : SegmentReader) : Except String ConstScorer :=
  let max_doc := reader.max_doc
  let doc_bitset := BitSet.with_max_value max_doc
  let inverted_index := reader.inverted_index w.field
  let term_dict := inverted_index.terms
  match w.automaton_stream term_dict with
  | Except.error e => Except.error e
  | Except.ok term_entries =>
    match fillBitset inverted_index term_entries doc_bitset with
    | Except.error e => Except.error e
    | Except.ok filled =>
      Except.ok (ConstScorer.new (BitSetDocSet.ofBitSet filled))

/-! ## Helper lemmas about the embedded operations -/

/-- Inversion of `scorer` on success: a successful call exhibits a
successful term stream and a successful full bitset fill, and the returned
scorer is the constant scorer over that bitset. -/
theorem scorer_ok_elim {A : Type} [Automaton A] (w : AutomatonWeight A)
    (r : SegmentReader) (s : ConstScorer)
    (h : w.scorer r = Except.ok s) :
    ∃ entries filled,
      w.automaton_stream (r.inverted_index w.field).terms =
        Except.ok entries ∧
      fillBitset (r.inverted_index w.field) entries
        (BitSet.with_max_value r.max_doc) = Except.ok filled ∧
      s = ConstScorer.new (BitSetDocSet.ofBitSet filled) := by
  unfold AutomatonWeight.scorer at h
  dsimp only at h
  split at h
  · exact absurd h (by simp)
  · next entries hstream =>
    split at h
    · exact absurd h (by simp)
    · next filled hfill =>
      exact ⟨entries, filled, hstream, hfill, (Except.ok.injEq _ _).mp h.symm⟩

/-- A successful bitset fill means every listed term's posting read
succeeded. -/
theorem fillBitset_ok_reads (inv : InvertedIndex) :
    ∀ (entries : List (String × TermInfo)) (bs filled : BitSet),
      fillBitset inv entries bs = Except.ok filled →
      ∀ e ∈ entries, ∃ blocks,
        inv.read_block_postings_from_terminfo e.2 IndexRecordOption.Basic =
          Except.ok blocks
  | [], _, _, _ => by intro e he; cases he
  | entry :: rest, bs, filled, h => by
    intro e he
    rw [fillBitset] at h
    split at h
    · cases h
    · next blocks hread =>
      cases he with
      | head => exact ⟨blocks, hread⟩
      | tail _ htail =>
        exact fillBitset_ok_reads inv rest (insertPostings blocks bs) filled
          h e htail

/-- If the posting read of some listed term fails, the whole fill fails. -/
theorem fillBitset_error_of_read_error (inv : InvertedIndex) :
    ∀ (entries : List (String × TermInfo)) (bs : BitSet)
      (e : String × TermInfo), e ∈ entries →
      (∃ msg, inv.read_block_postings_from_terminfo e.2
        IndexRecordOption.Basic = Except.error msg) →
      ∃ msg2, fillBitset inv entries bs = Except.error msg2
  | [], _, _, he, _ => by cases he
  | entry :: rest, bs, e, he, herr => by
    rw [fillBitset]
    cases hread : inv.read_block_postings_from_terminfo entry.2
        IndexRecordOption.Basic with
    | error msg => exact ⟨msg, rfl⟩
    | ok blocks =>
      cases he with
      | head =>
        obtain ⟨msg, hmsg⟩ := herr
        rw [hread] at hmsg
        cases hmsg
      | tail _ htail =>
        exact fillBitset_error_of_read_error inv rest
          (insertPostings blocks bs) e htail herr

/-- Inserting into a bitset never changes its capacity. -/
theorem insert_length (bs : BitSet) (d : Nat) :
    (bs.insert d).bits.length = bs.bits.length :=
  List.length_set bs.bits d true

/-- Folding a block of document ids into a bitset never changes its
capacity. -/
theorem foldl_insert_length :
    ∀ (block : List Nat) (bs : BitSet),
      (block.foldl BitSet.insert bs).bits.length = bs.bits.length
  | [], _ => rfl
  | d :: ds, bs => by
    rw [List.foldl_cons, foldl_insert_length ds (bs.insert d),
      insert_length]

/-- `insertPostings` never changes the bitset capacity. -/
theorem insertPostings_length :
    ∀ (blocks : List (List Nat)) (bs : BitSet),
      (insertPostings blocks bs).bits.length = bs.bits.length
  | [], _ => rfl
  | block :: rest, bs => by
    rw [insertPostings, List.foldl_cons]
    rw [show List.foldl (fun acc blk => blk.foldl BitSet.insert acc)
        (block.foldl BitSet.insert bs) rest =
      insertPostings rest (block.foldl BitSet.insert bs) from rfl]
    rw [insertPostings_length rest, foldl_insert_length]

/-- A successful fill never changes the bitset capacity. -/
theorem fillBitset_length (inv : InvertedIndex) :
    ∀ (entries : List (String × TermInfo)) (bs filled : BitSet),
      fillBitset inv entries bs = Except.ok filled →
      filled.bits.length = bs.bits.length
  | [], bs, filled, h => by
    rw [fillBitset] at h
    cases h
    rfl
  | entry :: rest, bs, filled, h => by
    rw [fillBitset] at h
    split at h
    · cases h
    · next blocks _ =>
      rw [fillBitset_length inv rest (insertPostings blocks bs) filled h,
        insertPostings_length]

/-- Every document id the doc set enumerates is below the bitset
capacity. -/
theorem mem_ofBitSet_lt (bs : BitSet) (d : Nat)
    (h : d ∈ (BitSetDocSet.ofBitSet bs).docs) : d < bs.bits.length := by
  rw [BitSetDocSet.ofBitSet] at h
  exact List.mem_range.mp (List.mem_filter.mp h).1

/-- The doc set of a bitset has no duplicate document ids. -/
theorem ofBitSet_nodup (bs : BitSet) :
    (BitSetDocSet.ofBitSet bs).docs.Nodup :=
  (List.nodup_range _).filter _

/-- The doc set of a bitset is strictly ascending. -/
theorem ofBitSet_sorted (bs : BitSet) :
    List.Sorted (· < ·) (BitSetDocSet.ofBitSet bs).docs :=
  (List.pairwise_lt_range _).sublist (List.filter_sublist _)

/-- `getD` on an all-`false` bitset payload is `false` at every index. -/
theorem getD_replicate_false :
    ∀ (n i : Nat), (List.replicate n false).getD i false = false
  | 0, _ => rfl
  | _ + 1, 0 => rfl
  | n + 1, i + 1 => getD_replicate_false n i

/-- A freshly allocated bitset enumerates no document at all. -/
theorem ofBitSet_with_max_value (n : Nat) :
    (BitSetDocSet.ofBitSet (BitSet.with_max_value n)).docs = [] := by
  rw [BitSetDocSet.ofBitSet]
  refine List.filter_eq_nil_iff.mpr ?_
  intro i _
  simp [BitSet.with_max_value, getD_replicate_false]

/-- Filling from the same term entries with posting readers that agree at
`Basic` granularity gives the same bitset: the fill consults no other
granularity. -/
theorem fillBitset_congr (inv inv2 : InvertedIndex)
    (hread : ∀ ti, inv.read_block_postings_from_terminfo ti
      IndexRecordOption.Basic =
      inv2.read_block_postings_from_terminfo ti IndexRecordOption.Basic) :
    ∀ (entries : List (String × TermInfo)) (bs : BitSet),
      fillBitset inv entries bs = fillBitset inv2 entries bs
  | [], _ => rfl
  | entry :: rest, bs => by
    rw [fillBitset, fillBitset, ← hread entry.2]
    cases inv.read_block_postings_from_terminfo entry.2
        IndexRecordOption.Basic with
    | error msg => rfl
    | ok blocks => exact fillBitset_congr inv inv2 hread rest _

/-! ## Concrete fixtures (used by the witnesses) -/

/-- A concrete term on field `0` with text `"a"`. -/
def tFix : Term := ⟨0, "a"⟩

/-- A concrete exact fuzzy query: target `"a"`, distance `0`. -/
def qFix : FuzzyTermQuery := FuzzyTermQuery.new tFix 0 false

/-- A concrete term-metadata handle. -/
def tiFix : TermInfo := ⟨0⟩

/-- A well-behaved inverted index: one dictionary entry `"a"`, whose
posting list is one block holding documents `0` and `1`. -/
def invGood : InvertedIndex :=
  { terms := ⟨Except.ok [("a", tiFix)]⟩
    read_block_postings_from_terminfo := fun _ _ => Except.ok [[0, 1]] }

/-- A two-document segment over `invGood`. -/
def readerGood : SegmentReader := ⟨2, fun _ => invGood⟩

/-- The specialized weight of `qFix`. -/
def wFix : AutomatonWeight DFA := qFix.specialized_weight

/-- An inverted index whose posting reads always fail. -/
def invBad : InvertedIndex :=
  { terms := ⟨Except.ok [("a", tiFix)]⟩
    read_block_postings_from_terminfo := fun _ _ => Except.error "io error" }

/-- A segment over `invBad`. -/
def readerBad : SegmentReader := ⟨2, fun _ => invBad⟩

/-- An inverted index agreeing with `invGood` at `Basic` granularity but
differing at every finer granularity. -/
def invFreqs : InvertedIndex :=
  { terms := ⟨Except.ok [("a", tiFix)]⟩
    read_block_postings_from_terminfo := fun _ opt =>
      match opt with
      | IndexRecordOption.Basic => Except.ok [[0, 1]]
      | _ => Except.error "finer granularity than the scorer ever reads" }

/-- A segment over `invFreqs`, same `max_doc` as `readerGood`. -/
def readerFreqs : SegmentReader := ⟨2, fun _ => invFreqs⟩

/-- An inverted index with an empty term dictionary. -/
def invEmpty : InvertedIndex :=
  { terms := ⟨Except.ok []⟩
    read_block_postings_from_terminfo := fun _ _ => Except.ok [] }

/-- A three-document segment whose dictionary is empty: the automaton
matches no term. -/
def readerEmpty : SegmentReader := ⟨3, fun _ => invEmpty⟩

/-- A searcher fixture (ignored by `weight`). -/
def searcherFix : Searcher := ⟨[]⟩

/-! ## Claims -/

/-- C1: for every segment and every document id yielded by the Scorer that
`AutomatonWeight::scorer` returns, the score reported for that document is
the constant `1.0`, regardless of how many automaton-accepted terms the
document contains. -/
theorem fuzzy_scorer_const_score_one {A : Type} [Automaton A]
    (w : AutomatonWeight A) (r : SegmentReader) (s : ConstScorer)
    (h : w.scorer r = Except.ok s) :
    ∀ d ∈ s.docset.docs, s.score = 1.0 := by
  obtain ⟨entries, filled, _, _, hs⟩ := scorer_ok_elim w r s h
  intro d _
  rw [hs]
  rfl

/-- Witness for C1: on the concrete two-document segment, document `0` is
yielded and its score is `1.0`. -/
theorem fuzzy_scorer_const_score_one_witness :
    (ConstScorer.new ⟨[0, 1]⟩).score = 1.0 :=
  fuzzy_scorer_const_score_one wFix readerGood (ConstScorer.new ⟨[0, 1]⟩)
    rfl 0 (by decide)

/-- C2: `FuzzyTermQuery::weight` returns a behaviorally identical
constant-score weight whether `scoring_enabled` is `true` or `false`; the
flag has no influence on the returned weight or on any scorer it later
produces. -/
theorem fuzzy_weight_ignores_scoring_enabled (q : FuzzyTermQuery)
    (searcher : Searcher) (b1 b2 : Bool) :
    q.weight searcher b1 = q.weight searcher b2 ∧
    ∀ (w1 w2 : AutomatonWeight DFA) (r : SegmentReader),
      q.weight searcher b1 = Except.ok w1 →
      q.weight searcher b2 = Except.ok w2 →
      w1.scorer r = w2.scorer r := by
  refine ⟨rfl, ?_⟩
  intro w1 w2 r h1 h2
  unfold FuzzyTermQuery.weight at h1 h2
  injection h1 with h1
  injection h2 with h2
  rw [← h1, ← h2]

/-- Witness for C2: the concrete query's weights under both flag values
agree, and so do the scorers of the weights they return. -/
theorem fuzzy_weight_ignores_scoring_enabled_witness :
    qFix.weight searcherFix true = qFix.weight searcherFix false ∧
    wFix.scorer readerGood = wFix.scorer readerGood :=
  ⟨(fuzzy_weight_ignores_scoring_enabled qFix searcherFix true false).1,
   (fuzzy_weight_ignores_scoring_enabled qFix searcherFix true false).2
     wFix wFix readerGood rfl rfl⟩

/-- C3: scorer construction is all-or-nothing.  A successful
`AutomatonWeight::scorer` call exhibits a successful read of every matched
term's posting list; if the posting read of any matched term fails, or the
dictionary read fails, the call returns an error and no scorer (hence never
a scorer over a partially filled bitset). -/
theorem fuzzy_scorer_all_or_nothing {A : Type} [Automaton A]
    (w : AutomatonWeight A) (r : SegmentReader) :
    (∀ s, w.scorer r = Except.ok s →
      ∃ entries,
        w.automaton_stream (r.inverted_index w.field).terms =
          Except.ok entries ∧
        ∀ e ∈ entries, ∃ blocks,
          (r.inverted_index w.field).read_block_postings_from_terminfo e.2
            IndexRecordOption.Basic = Except.ok blocks) ∧
    (∀ (entries : List (String × TermInfo)) (e : String × TermInfo),
      w.automaton_stream (r.inverted_index w.field).terms =
        Except.ok entries →
      e ∈ entries →
      (∃ msg, (r.inverted_index w.field).read_block_postings_from_terminfo
        e.2 IndexRecordOption.Basic = Except.error msg) →
      (w.scorer r).isOk = false) ∧
    (∀ msg, (r.inverted_index w.field).terms.entries = Except.error msg →
      w.scorer r = Except.error msg) := by
  refine ⟨?_, ?_, ?_⟩
  · intro s h
    obtain ⟨entries, filled, hstream, hfill, _⟩ := scorer_ok_elim w r s h
    exact ⟨entries, hstream, fillBitset_ok_reads _ entries _ filled hfill⟩
  · intro entries e hstream he herr
    obtain ⟨msg2, hfill⟩ := fillBitset_error_of_read_error
      (r.inverted_index w.field) entries (BitSet.with_max_value r.max_doc)
      e he herr
    simp [AutomatonWeight.scorer, hstream, hfill, Except.isOk,
      Except.toBool]
  · intro msg hmsg
    have hstream : w.automaton_stream (r.inverted_index w.field).terms =
        Except.error msg := by
      simp [AutomatonWeight.automaton_stream, TermDictionary.search, hmsg]
    simp [AutomatonWeight.scorer, hstream]

/-- Witness for C3: on the concrete segment whose posting reads fail, the
scorer call does not return a scorer. -/
theorem fuzzy_scorer_all_or_nothing_witness :
    (wFix.scorer readerBad).isOk = false :=
  (fuzzy_scorer_all_or_nothing wFix readerBad).2.1 [("a", tiFix)]
    ("a", tiFix) rfl (by decide) ⟨"io error", rfl⟩

/-- C4: the Doc Set produced by `AutomatonWeight::scorer` contains each
matching document id at most once, and inserting a document id into the Doc
Bitset a second time leaves the set unchanged. -/
theorem fuzzy_scorer_no_duplicate_docs :
    (∀ {A : Type} [Automaton A] (w : AutomatonWeight A) (r : SegmentReader)
      (s : ConstScorer),
      w.scorer r = Except.ok s → s.docset.docs.Nodup) ∧
    (∀ (bs : BitSet) (d : Nat), (bs.insert d).insert d = bs.insert d) := by
  constructor
  · intro A _ w r s h
    obtain ⟨entries, filled, _, _, hs⟩ := scorer_ok_elim w r s h
    rw [hs]
    exact ofBitSet_nodup filled
  · intro bs d
    simp [BitSet.insert, List.set_set]

/-- Witness for C4: the concrete segment's Doc Set has no duplicates, and a
concrete double insertion collapses to a single one. -/
theorem fuzzy_scorer_no_duplicate_docs_witness :
    (ConstScorer.new ⟨[0, 1]⟩).docset.docs.Nodup ∧
    ((BitSet.with_max_value 2).insert 0).insert 0 =
      (BitSet.with_max_value 2).insert 0 :=
  ⟨fuzzy_scorer_no_duplicate_docs.1 wFix readerGood
    (ConstScorer.new ⟨[0, 1]⟩) rfl,
   fuzzy_scorer_no_duplicate_docs.2 (BitSet.with_max_value 2) 0⟩

/-- C5: the Doc Bitset is allocated with capacity equal to the segment's
`max_doc`, and every document id yielded by the returned Scorer is strictly
below that `max_doc`. -/
theorem fuzzy_scorer_docs_lt_max_doc {A : Type} [Automaton A]
    (w : AutomatonWeight A) (r : SegmentReader) (s : ConstScorer)
    (h : w.scorer r = Except.ok s) :
    (BitSet.with_max_value r.max_doc).max_value = r.max_doc ∧
    ∀ d ∈ s.docset.docs, d < r.max_doc := by
  obtain ⟨entries, filled, hstream, hfill, hs⟩ := scorer_ok_elim w r s h
  constructor
  · simp [BitSet.max_value, BitSet.with_max_value]
  · intro d hd
    rw [hs] at hd
    have hlen := fillBitset_length _ entries _ filled hfill
    have hlt := mem_ofBitSet_lt filled d hd
    rw [hlen] at hlt
    simpa [BitSet.with_max_value] using hlt

/-- Witness for C5: on the concrete two-document segment the allocated
capacity equals `max_doc` and the yielded document `0` is below it. -/
theorem fuzzy_scorer_docs_lt_max_doc_witness :
    (BitSet.with_max_value readerGood.max_doc).max_value =
      readerGood.max_doc ∧ (0 : Nat) < readerGood.max_doc :=
  ⟨(fuzzy_scorer_docs_lt_max_doc wFix readerGood (ConstScorer.new ⟨[0, 1]⟩)
      (show wFix.scorer readerGood =
        Except.ok (ConstScorer.new ⟨[0, 1]⟩) from rfl)).1,
   (fuzzy_scorer_docs_lt_max_doc wFix readerGood (ConstScorer.new ⟨[0, 1]⟩)
      (show wFix.scorer readerGood =
        Except.ok (ConstScorer.new ⟨[0, 1]⟩) from rfl)).2 0 (by decide)⟩

/-- C6: the scorer reads posting lists only at the `Basic` record
granularity: two segments that agree on `max_doc`, on the dictionary and on
every posting read at `Basic` granularity — but may differ arbitrarily at
any finer granularity — produce identical scorers. -/
theorem fuzzy_scorer_reads_only_basic {A : Type} [Automaton A]
    (w : AutomatonWeight A) (r r2 : SegmentReader)
    (hmax : r.max_doc = r2.max_doc)
    (hterms : (r.inverted_index w.field).terms =
      (r2.inverted_index w.field).terms)
    (hread : ∀ ti,
      (r.inverted_index w.field).read_block_postings_from_terminfo ti
        IndexRecordOption.Basic =
      (r2.inverted_index w.field).read_block_postings_from_terminfo ti
        IndexRecordOption.Basic) :
    w.scorer r = w.scorer r2 := by
  unfold AutomatonWeight.scorer
  dsimp only
  rw [hmax, hterms]
  cases hstream : w.automaton_stream (r2.inverted_index w.field).terms with
  | error e => rfl
  | ok entries =>
    have hcongr := fillBitset_congr (r.inverted_index w.field)
      (r2.inverted_index w.field) hread entries
      (BitSet.with_max_value r2.max_doc)
    simp only [hcongr]

/-- Witness for C6: the scorer over `readerGood` equals the scorer over
`readerFreqs`, although the two segments disagree on every posting read at
any granularity finer than `Basic`. -/
theorem fuzzy_scorer_reads_only_basic_witness :
    wFix.scorer readerGood = wFix.scorer readerFreqs :=
  fuzzy_scorer_reads_only_basic wFix readerGood readerFreqs rfl rfl
    (fun _ => rfl)

/-- C7: `FuzzyTermQuery::new` sets the prefix flag to `false` and its
`build_automaton` builds an exact-mode Levenshtein DFA over the query's
term text, distance and transposition policy; `FuzzyTermQuery::new_prefix`
sets the flag to `true` and `build_automaton` builds a prefix DFA from the
same parameters.  (`build_automaton` is a pure function of the query's own
immutable fields, so it consumes no other input and every call yields the
same fresh automaton value.) -/
theorem fuzzy_constructors_and_build_automaton (t : Term) (d : Nat)
    (tr : Bool) :
    (FuzzyTermQuery.new t d tr).isPrefix = false ∧
    (FuzzyTermQuery.new t d tr).build_automaton =
      (LevenshteinAutomatonBuilder.new d tr).build_dfa t.text ∧
    (FuzzyTermQuery.newPrefix t d tr).isPrefix = true ∧
    (FuzzyTermQuery.newPrefix t d tr).build_automaton =
      (LevenshteinAutomatonBuilder.new d tr).buildPrefixDfa t.text :=
  ⟨rfl, rfl, rfl, rfl⟩

/-- C8: two invocations of `weight` followed by `scorer` on the same
segment yield Doc Sets containing exactly the same document ids in the same
(ascending) order. -/
theorem fuzzy_scorer_deterministic (q : FuzzyTermQuery)
    (searcher1 searcher2 : Searcher) (b1 b2 : Bool) (r : SegmentReader)
    (w1 w2 : AutomatonWeight DFA) (s1 s2 : ConstScorer)
    (h1 : q.weight searcher1 b1 = Except.ok w1)
    (h2 : q.weight searcher2 b2 = Except.ok w2)
    (hs1 : w1.scorer r = Except.ok s1)
    (hs2 : w2.scorer r = Except.ok s2) :
    s1.docset.docs = s2.docset.docs ∧
    List.Sorted (· < ·) s1.docset.docs := by
  unfold FuzzyTermQuery.weight at h1 h2
  injection h1 with h1
  injection h2 with h2
  rw [← h1] at hs1
  rw [← h2] at hs2
  rw [hs1] at hs2
  injection hs2 with hs2
  constructor
  · rw [hs2]
  · obtain ⟨entries, filled, _, _, hs⟩ :=
      scorer_ok_elim q.specialized_weight r s1 hs1
    rw [hs]
    exact ofBitSet_sorted filled

/-- Witness for C8: two weight-then-scorer runs of the concrete query over
the concrete segment, one per flag value, agree and are ascending. -/
theorem fuzzy_scorer_deterministic_witness :
    (ConstScorer.new ⟨[0, 1]⟩).docset.docs =
      (ConstScorer.new ⟨[0, 1]⟩).docset.docs ∧
    List.Sorted (· < ·) (ConstScorer.new ⟨[0, 1]⟩).docset.docs :=
  fuzzy_scorer_deterministic qFix searcherFix searcherFix true false
    readerGood wFix wFix (ConstScorer.new ⟨[0, 1]⟩)
    (ConstScorer.new ⟨[0, 1]⟩) rfl rfl rfl rfl

/-- C9: `FuzzyTermQuery::weight` always returns `Ok` — for every query,
searcher and flag value it is `Ok` of the specialized weight, so no
automaton-parameter validation can fail at weight-build time. -/
theorem fuzzy_weight_always_ok (q : FuzzyTermQuery) (searcher : Searcher)
    (scoring_enabled : Bool) :
    q.weight searcher scoring_enabled = Except.ok q.specialized_weight :=
  rfl

/-- C10: when the automaton accepts no term of the segment's dictionary
(the term stream is exhausted immediately), `scorer` returns `Ok` with a
constant-score scorer over an empty Doc Set, not an error. -/
theorem fuzzy_scorer_empty_stream {A : Type} [Automaton A]
    (w : AutomatonWeight A) (r : SegmentReader)
    (hstream : w.automaton_stream (r.inverted_index w.field).terms =
      Except.ok []) :
    w.scorer r = Except.ok (ConstScorer.new
      (BitSetDocSet.ofBitSet (BitSet.with_max_value r.max_doc))) ∧
    (BitSetDocSet.ofBitSet (BitSet.with_max_value r.max_doc)).docs = [] ∧
    (ConstScorer.new
      (BitSetDocSet.ofBitSet (BitSet.with_max_value r.max_doc))).score =
      1.0 := by
  refine ⟨?_, ofBitSet_with_max_value r.max_doc, rfl⟩
  simp [AutomatonWeight.scorer, hstream, fillBitset]

/-- Witness for C10: on the concrete segment with an empty dictionary the
scorer call succeeds with an empty Doc Set and score `1.0`. -/
theorem fuzzy_scorer_empty_stream_witness :
    wFix.scorer readerEmpty = Except.ok (ConstScorer.new
      (BitSetDocSet.ofBitSet
        (BitSet.with_max_value readerEmpty.max_doc))) ∧
    (BitSetDocSet.ofBitSet
      (BitSet.with_max_value readerEmpty.max_doc)).docs = [] ∧
    (ConstScorer.new (BitSetDocSet.ofBitSet
      (BitSet.with_max_value readerEmpty.max_doc))).score = 1.0 :=
  fuzzy_scorer_empty_stream wFix readerEmpty rfl

end Fuzzy
